import Mathlib

/-!
Verification of the raw continuous-data container of `mne/io/base.py`:
the preloaded/on-demand indexed read path (`BaseRaw._getitem`,
`BaseRaw._read_segment`), the calibration/compensation/projection
composer, annotation-aware retrieval (`BaseRaw.get_data`), cropping
(`BaseRaw.crop`), concatenation (`BaseRaw.append`), the gradient
compensation switch (`BaseRaw.apply_gradient_compensation`) and the
buffer-bounded segmented writer (`_write_raw_data`, `_RawFidWriter`).

Sample values are modelled as rationals; a data matrix is a function
from channel index and time index to a value.  Arithmetic on sample
counts uses natural numbers; the Python code computes these with
arbitrary-precision integers, and the places where the source could in
principle go negative are guarded by the same well-formedness facts the
source relies on (the relevant lemmas establish them).
-/

namespace MNE

/-- Modelled from the spec: the annotation subsystem (external to
`mne/io/base.py`) stores (onset, duration, description) triples; here
they are synchronized to sample space via the sampling frequency, so
`onsetSamp` is the first sample covered and `onsetSamp + durSamp` the
first sample not covered, both relative to the first sample of the
container. -/
structure Annot where
  onsetSamp : ℕ
  durSamp : ℕ
  description : String
  deriving DecidableEq, Repr

/-- The raw continuous-data container (`BaseRaw`).  `firstSamps` and
`lastSamps` hold one inclusive sample interval per constituent source
file (`_first_samps` / `_last_samps`); `readPicks` maps container
channel indices to original in-file channel indices (`_read_picks`);
`fileData` stands for the per-file opaque state (`_raw_extras` plus
filename) that the format-specific reader pulls bytes from, modelled as
the uncalibrated values stored in that file; `cals` is the per-channel
`range * calibration` vector (`_cals`); `comp` and `projector` are the
optional pending compensation and projection operators; `preload` is
the optional in-memory buffer (`_data`); `croppedSamp` is
`_cropped_samp`; `compGrade` / `readCompGrade` / `projApplied` model
`compensation_grade`, `_read_comp_grade` and `self.proj`. -/
structure Raw where
  nchan : ℕ
  sfreq : ℚ
  firstSamps : List ℕ
  lastSamps : List ℕ
  readPicks : List (ℕ → ℕ)
  fileData : List (ℕ → ℕ → ℚ)
  cals : ℕ → ℚ
  comp : Option (ℕ → ℕ → ℚ)
  projector : Option (ℕ → ℕ → ℚ)
  preload : Option (ℕ → ℕ → ℚ)
  croppedSamp : ℕ
  annotations : List Annot
  compGrade : ℤ
  readCompGrade : ℤ
  projApplied : Bool

/-- Number of constituent source files. -/
def numFiles (r : Raw) : ℕ := r.firstSamps.length

/-- Per-file sample counts, `last - first + 1` (`BaseRaw._raw_lengths`). -/
def rawLengths (r : Raw) : List ℕ :=
  List.zipWith (fun f l => l - f + 1) r.firstSamps r.lastSamps

/-- Total number of samples, `last_samp - first_samp + 1`
(`BaseRaw.n_times`); equals the sum of the per-file lengths. -/
def nTimes (r : Raw) : ℕ := (rawLengths r).sum

/-- Cumulative sample boundaries across files: `cumulLen r k` is the
number of samples contributed by the first `k` files (the entries of
`cumul_lens` in `BaseRaw._read_segment` and `BaseRaw.crop`). -/
def cumulLen (r : Raw) (k : ℕ) : ℕ := ((rawLengths r).take k).sum

/-- Well-formedness invariants the container maintains: the per-file
sequences have equal length (the invariant checked at the end of
`BaseRaw.append`), there is at least one constituent file, and each
file interval is nonempty. -/
def wf (r : Raw) : Prop :=
  r.lastSamps.length = numFiles r ∧
  r.readPicks.length = numFiles r ∧
  r.fileData.length = numFiles r ∧
  0 < numFiles r ∧
  ∀ i < numFiles r, r.firstSamps.getD i 0 ≤ r.lastSamps.getD i 0

instance (r : Raw) : Decidable (wf r) := by
  unfold wf; infer_instance

/-! ### Calibration / compensation / projection composer
(`BaseRaw._read_segment`, lines 429-456). -/

/-- Dense matrix product with inner dimension `n` (`projector @ comp`). -/
def matMul (n : ℕ) (a b : ℕ → ℕ → ℚ) : ℕ → ℕ → ℚ :=
  fun i j => ∑ k ∈ Finset.range n, a i k * b k j

/-- The combined optional dense operator: `mult = comp`, then
`mult = projector @ mult` when a projector is present; when there is no
compensation, `mult = projector` (which may be absent). -/
def multOp (r : Raw) : Option (ℕ → ℕ → ℚ) :=
  match r.comp, r.projector with
  | some c, some p => some (matMul r.nchan p c)
  | some c, none => some c
  | none, p => p

/-- Result of setting up `cals` and `mult` for a segment read: either
the scalar per-channel calibration path or the dense multiplier path,
together with the set of input channels that must actually be fetched
(`need_idx`) and the number of output channels. -/
structure CalsMult where
  cals : Option (ℕ → ℚ)
  mult : Option (ℕ → ℕ → ℚ)
  needIdx : List ℕ
  nOut : ℕ

/-- Set up `cals` and `mult` exactly as `BaseRaw._read_segment` does:
with no combined operator, `cals` is sub-indexed by the selection and
`mult` is `None`; otherwise `mult = mult[idx] * cals` (calibration
broadcast into columns), `cals` is `None`, and the input channel set is
reduced to the columns of `mult` holding at least one nonzero entry
before `mult` is restricted to those columns. -/
def calcCalsMult (r : Raw) (idx : List ℕ) : CalsMult :=
  match multOp r with
  | none =>
    { cals := some (fun i => r.cals (idx.getD i 0))
      mult := none
      needIdx := idx
      nOut := idx.length }
  | some m0 =>
    let m1 : ℕ → ℕ → ℚ := fun i j => m0 (idx.getD i 0) j * r.cals j
    let needIdx := (List.range r.nchan).filter
      (fun j => (List.range idx.length).any (fun i => m1 i j != 0))
    { cals := none
      mult := some (fun i k => m1 i (needIdx.getD k 0))
      needIdx := needIdx
      nOut := idx.length }

/-! ### Segment reader (`BaseRaw._read_segment`). -/

/-- Channel selection resolution: `sel = None` selects all channels
(`idx = slice(None)`), otherwise the explicit index list. -/
def selIdx (r : Raw) (sel : Option (List ℕ)) : List ℕ :=
  match sel with
  | none => List.range r.nchan
  | some s => s

/-- The clamp applied to the requested stop sample:
`stop = self.n_times if stop is None else min([int(stop), self.n_times])`. -/
def clampStop (r : Raw) (stop? : Option ℕ) : ℕ :=
  match stop? with
  | none => nTimes r
  | some s => min s (nTimes r)

/-- The subset of constituent files overlapping the requested range:
`files_used = (start < cumul_lens[1:]) & (stop - 1 >= cumul_lens[:-1])`. -/
def filesUsed (r : Raw) (start stop : ℕ) : List ℕ :=
  (List.range (numFiles r)).filter
    (fun fi => decide (start < cumulLen r (fi + 1)) && decide (cumulLen r fi ≤ stop - 1))

/-- Modelled from the spec: the format-specific per-file reader
`_read_segment_file` is abstract in the source (`raise
NotImplementedError`; format readers are external collaborators).  Per
the external-interface contract it must fill the caller-provided output
slice in place with the data of file `fi` for file-coordinate samples
`[start, stop)` on the channel index set `idx`, applying either the
already-sub-indexed scalar calibrations `cals` or the dense composed
multiplier `mult`. -/
def readSegmentFile (r : Raw) (idx : List ℕ) (fi start _stop : ℕ)
    (cals : Option (ℕ → ℚ)) (mult : Option (ℕ → ℕ → ℚ)) : ℕ → ℕ → ℚ :=
  let fd := r.fileData.getD fi (fun _ _ => 0)
  match cals with
  | some c => fun i t => c i * fd (idx.getD i 0) (start + t)
  | none =>
    match mult with
    | some m => fun i t => ∑ k ∈ Finset.range idx.length, m i k * fd (idx.getD k 0) (start + t)
    | none => fun _ _ => 0

/-- Write `vals` into output positions `[offset, offset + nRead)`
(the in-place fill of `data[:, this_sl]`). -/
def writeSlice (data : ℕ → ℕ → ℚ) (offset nRead : ℕ) (vals : ℕ → ℕ → ℚ) :
    ℕ → ℕ → ℚ :=
  fun i t => if offset ≤ t ∧ t < offset + nRead then vals i (t - offset) else data i t

/-- The read-from-necessary-files loop of `BaseRaw._read_segment`: for
each used file compute its local `(start_file, stop_file)` window (only
the first iteration can start mid-file), check the index sanity guard,
delegate to the per-file reader and advance the output offset. -/
def readFilesLoop (r : Raw) (cm : CalsMult) (start stop : ℕ) :
    List ℕ → ℕ → (ℕ → ℕ → ℚ) → Except String (ℕ → ℕ → ℚ)
  | [], _, data => .ok data
  | fi :: rest, offset, data =>
    let fs := r.firstSamps.getD fi 0
    let startFile := if offset = 0 then fs + (start - cumulLen r fi) else fs
    let stopFile := min (stop - cumulLen r fi + fs) (r.lastSamps.getD fi 0 + 1)
    if startFile < fs ∨ stopFile < startFile then
      .error "Bad array indexing, could be a bug"
    else
      let nRead := stopFile - startFile
      let origIdx := cm.needIdx.map (r.readPicks.getD fi id)
      let vals := readSegmentFile r origIdx fi startFile stopFile cm.cals cm.mult
      readFilesLoop r cm start stop rest (offset + nRead) (writeSlice data offset nRead vals)

/-- `BaseRaw._read_segment`: clamp `stop`, fail when the range is
empty, set up `cals`/`mult`, then assemble the output buffer from the
overlapping files. -/
def readSegment (r : Raw) (start : ℕ) (stop? : Option ℕ) (sel : Option (List ℕ)) :
    Except String (ℕ → ℕ → ℚ) :=
  let stop := clampStop r stop?
  if stop ≤ start then .error "No data in this range"
  else
    let idx := selIdx r sel
    let cm := calcCalsMult r idx
    readFilesLoop r cm start stop (filesUsed r start stop) 0 (fun _ _ => 0)

/-- `BaseRaw._getitem` after `_parse_get_set_params` has resolved the
item to a channel selection and a sample window: a preloaded container
answers from the in-memory buffer (`self._data[sel, start:stop]`, a
pure read leaving the buffer untouched), otherwise the segment reader
is called. -/
def getitemData (r : Raw) (sel : Option (List ℕ)) (start stop : ℕ) :
    Except String (ℕ → ℕ → ℚ) :=
  match r.preload with
  | some d => .ok (fun i t => d ((selIdx r sel).getD i 0) (start + t))
  | none => readSegment r start (some stop) sel

/-! ### Annotation-aware retrieval (`BaseRaw.get_data`). -/

/-- Modelled from the spec: the test whether an annotation description
marks a bad interval, `descr.lower().startswith("bad")`, computed over
the character data of the string. -/
def startsWithBad (s : String) : Bool :=
  match s.data with
  | c1 :: c2 :: c3 :: _ => c1.toLower == 'b' && c2.toLower == 'a' && c3.toLower == 'd'
  | _ => false

/-- Modelled from the spec: `_annotations_starts_stops(raw, ["BAD"])`
lives in the external annotation subsystem; per the spec it yields the
sample intervals of the annotations whose description starts with
"bad" (case-insensitively), each as an onset sample and a first sample
not covered. -/
def annotationsStartsStops (r : Raw) : List (ℕ × ℕ) :=
  (r.annotations.filter (fun a => startsWithBad a.description)).map
    (fun a => (a.onsetSamp, a.onsetSamp + a.durSamp))

/-- Clear the entries of a boolean run mask over `[a, b)`
(`used[onset - start:end - start] = False`). -/
def setRangeFalse (used : List Bool) (a b : ℕ) : List Bool :=
  used.mapIdx (fun t u => if a ≤ t ∧ t < b then false else u)

/-- The boolean keep-mask of `BaseRaw.get_data`: start from all-true
over the query window and clear every clamped bad interval (empty
intervals are skipped). -/
def usedMask (nSamples : ℕ) (pairs : List (ℕ × ℕ)) (start : ℕ) : List Bool :=
  pairs.foldl
    (fun u p => if p.2 ≤ p.1 then u else setRangeFalse u (p.1 - start) (p.2 - start))
    (List.replicate nSamples true)

/-- Onsets of the kept runs, from the padded transition scan
(`np.where(~used[:-1] & used[1:])[0] + start`). -/
def runStarts (used : List Bool) (start : ℕ) : List ℕ :=
  let usedPad := false :: (used ++ [false])
  ((List.range (used.length + 1)).filter
    (fun t => usedPad.getD t false = false ∧ usedPad.getD (t + 1) false = true)).map
    (fun t => t + start)

/-- Ends of the kept runs (`np.where(used[:-1] & ~used[1:])[0] + start`). -/
def runStops (used : List Bool) (start : ℕ) : List ℕ :=
  let usedPad := false :: (used ++ [false])
  ((List.range (used.length + 1)).filter
    (fun t => usedPad.getD t false = true ∧ usedPad.getD (t + 1) false = false)).map
    (fun t => t + start)

/-- The "omit" assembly loop: physically excise the bad sub-intervals
and concatenate the remaining runs into a fresh zero-initialized buffer
(`data[:, idx:end] = self[picks, start:stop]`, empty runs skipped). -/
def omitConcat (r : Raw) (picks : List ℕ) :
    List (ℕ × ℕ) → ℕ → (ℕ → ℕ → ℚ) → Except String (ℕ → ℕ → ℚ)
  | [], _, acc => .ok acc
  | (s, t) :: rest, idx, acc =>
    if s = t then omitConcat r picks rest idx acc
    else
      match getitemData r (some picks) s t with
      | .error e => .error e
      | .ok d => omitConcat r picks rest (idx + (t - s)) (writeSlice acc idx (t - s) d)

/-- Lift a plain data matrix into the NaN-capable value space
(`none` stands for a not-a-number sentinel entry). -/
def liftData (d : ℕ → ℕ → ℚ) : ℕ → ℕ → Option ℚ := fun i t => some (d i t)

/-- `BaseRaw.get_data` with resolved integer picks and sample window:
clamp the window to `[0, n_times]`; without annotations or a rejection
mode just index; otherwise compute the union of bad intervals
intersecting the window, and either excise them ("omit") or fill them
with NaN while preserving the sample count ("nan").  Unit conversion is
not requested by the claims (`units=None`) and is not modelled. -/
def getData (r : Raw) (picks : List ℕ) (start0 : ℕ) (stop0? : Option ℕ)
    (rejectMode : Option String) : Except String (ℕ → ℕ → Option ℚ) :=
  let start := min start0 (nTimes r)
  let stop := match stop0? with
    | none => nTimes r
    | some s => min s (nTimes r)
  if r.annotations.length = 0 ∨ rejectMode = none then
    (getitemData r (some picks) start stop).map liftData
  else
    let mode := rejectMode.getD ""
    if mode ≠ "omit" ∧ mode ≠ "nan" then
      .error "Invalid value for the reject_by_annotation parameter"
    else
      let pairs := annotationsStartsStops r
      let kept := pairs.filter (fun p => decide (p.1 < stop) && decide (start < p.2))
      let onsets := kept.map (fun p => max p.1 start)
      let ends := kept.map (fun p => min p.2 stop)
      if onsets.length = 0 then
        (getitemData r (some picks) start stop).map liftData
      else
        let nSamples := stop - start
        let used := usedMask nSamples (onsets.zip ends) start
        let starts := runStarts used start
        let stops := runStops used start
        let nKept := (List.zipWith (fun a b => a - b) stops starts).sum
        let nRejected := nSamples - nKept
        if 0 < nRejected then
          if mode = "omit" then
            (omitConcat r picks (starts.zip stops) 0 (fun _ _ => 0)).map liftData
          else
            match getitemData r (some picks) start stop with
            | .error e => .error e
            | .ok d => .ok (fun i t => if used.getD t true then some (d i t) else none)
        else
          (getitemData r (some picks) start stop).map liftData

/-! ### Crop (`BaseRaw.crop`). -/

/-- Replace the last element of a list by the image under `f`. -/
def modifyLast (f : ℕ → ℕ) : List ℕ → List ℕ
  | [] => []
  | [x] => [f x]
  | x :: y :: rest => x :: modifyLast f (y :: rest)

/-- The constituent files kept by a crop to the sample window
`[smin, smax]` (`keepers = (smin < cumul_lens[1:]) & (smax >= cumul_lens[:-1])`). -/
def cropKeepers (r : Raw) (smin smax : ℕ) : List ℕ :=
  (List.range (numFiles r)).filter
    (fun fi => decide (smin < cumulLen r (fi + 1)) && decide (cumulLen r fi ≤ smax))

/-- `BaseRaw.crop` once `_time_mask` has resolved the time window to
the inclusive sample window `[smin, smax]` (the float time-to-sample
resolution lives in the external `_time_mask` helper and is not
re-modelled): advance `_cropped_samp`, drop the files outside the
window, adjust the first kept file onset and the last kept file end,
slice any preloaded buffer, and re-anchor the annotations to the new
first sample. -/
def crop (r : Raw) (smin smax : ℕ) : Raw :=
  let keepers := cropKeepers r smin smax
  let lo := keepers.headD 0
  let hi := keepers.getLastD 0
  { r with
    croppedSamp := r.croppedSamp + smin
    firstSamps := (keepers.map (fun fi => r.firstSamps.getD fi 0)).modifyHead
      (fun x => x + (smin - cumulLen r lo))
    lastSamps := modifyLast (fun x => x - (cumulLen r (hi + 1) - 1 - smax))
      (keepers.map (fun fi => r.lastSamps.getD fi 0))
    readPicks := keepers.map (fun fi => r.readPicks.getD fi id)
    fileData := keepers.map (fun fi => r.fileData.getD fi (fun _ _ => 0))
    preload := r.preload.map (fun d => fun ch t => d ch (smin + t))
    annotations := (r.annotations.filter
        (fun a => decide (smin ≤ a.onsetSamp + a.durSamp) && decide (a.onsetSamp ≤ smax + 1))).map
      (fun a => { a with onsetSamp := a.onsetSamp - smin }) }

/-! ### Concatenation (`BaseRaw.append`). -/

/-- The compatibility validation of `_check_raw_compatibility`
restricted to the modelled fields: equal channel count, equal sampling
frequency and identical calibration vectors. -/
def checkRawCompatibility (a b : Raw) : Bool :=
  a.nchan == b.nchan && a.sfreq == b.sfreq &&
    (List.range a.nchan).all (fun ch => a.cals ch == b.cals ch)

/-- Modelled from the spec: `_combine_annotations` (external annotation
subsystem) merges two annotation sets given the sample offset of the
splice point, shifting the second set by that offset. -/
def combineAnnotations (a b : List Annot) (edgeSamp : ℕ) : List Annot :=
  a ++ b.map (fun ann => { ann with onsetSamp := ann.onsetSamp + edgeSamp })

/-- `BaseRaw.append` for one appended container: validate
compatibility, fuse the data buffers when both are preloaded, extend
every per-file sequence, merge the annotations at the splice point
`edge_samp` (the sample count of the left container) and add the two
zero-duration boundary markers there. -/
def appendRaw (a b : Raw) : Except String Raw :=
  if checkRawCompatibility a b then
    let edge := nTimes a
    .ok { a with
      preload := match a.preload, b.preload with
        | some da, some db => some (fun ch t => if t < edge then da ch t else db ch (t - edge))
        | _, _ => none
      firstSamps := a.firstSamps ++ b.firstSamps
      lastSamps := a.lastSamps ++ b.lastSamps
      readPicks := a.readPicks ++ b.readPicks
      fileData := a.fileData ++ b.fileData
      annotations := combineAnnotations a.annotations b.annotations edge ++
        [⟨edge, 0, "BAD boundary"⟩, ⟨edge, 0, "EDGE boundary"⟩] }
  else .error "raw compatibility check failed"

/-! ### Compensation grade change (`BaseRaw.apply_gradient_compensation`). -/

/-- The chunk boundaries `np.concatenate([np.arange(0, n, 10000), [n]])`. -/
def chunkLims (n : ℕ) : List ℕ :=
  (List.range ((n + 9999) / 10000)).map (fun k => k * 10000) ++ [n]

/-- Apply the compensation operator to one chunk of the preloaded
buffer (`self._data[:, start:stop] = comp @ self._data[:, start:stop]`). -/
def applyChunk (nchan : ℕ) (comp d : ℕ → ℕ → ℚ) (a b : ℕ) : ℕ → ℕ → ℚ :=
  fun ch t =>
    if a ≤ t ∧ t < b then ∑ k ∈ Finset.range nchan, comp ch k * d k t else d ch t

/-- `BaseRaw.apply_gradient_compensation`: a request for the current
grade does nothing; otherwise it is refused once projectors have been
applied, and else the transform built by the external
`make_compensator` (abstracted as `mkComp`) is either applied to a
preloaded buffer in 10000-sample chunks or stored as the pending
operator. -/
def applyGradientCompensation (r : Raw) (grade : ℤ)
    (mkComp : ℤ → ℤ → (ℕ → ℕ → ℚ)) : Except String Raw :=
  if r.compGrade ≠ grade then
    if r.projApplied then
      .error "Cannot change compensation on data where projectors have been applied."
    else
      let fromComp := match r.preload with
        | some _ => r.compGrade
        | none => r.readCompGrade
      let compM := mkComp fromComp grade
      let r2 := { r with compGrade := grade }
      match r2.preload with
      | some d =>
        let lims := chunkLims (nTimes r2)
        let d2 := (lims.zip lims.tail).foldl
          (fun dd p => applyChunk r2.nchan compM dd p.1 p.2) d
        .ok { r2 with preload := some d2 }
      | none => .ok { r2 with comp := some compM }
  else .ok r

/-! ### Buffer-bounded segmented writer (`_write_raw_data`,
`_RawFidWriter.write`). -/

/-- Observable output primitives emitted into the current file: a data
buffer covering samples `[first, last)`, a run-length skip marker
(`FIFF_DATA_SKIP`), or a forward-reference block naming the next split
file and its sequence index (`FIFFB_REF` with `FIFFV_ROLE_NEXT_FILE`). -/
inductive WEvent where
  | buffer (first last : ℕ)
  | skip (n : ℕ)
  | nextFileRef (name : String) (num : ℕ)
  deriving DecidableEq, Repr

/-- Writer configuration: the sample window `[startS, stopS)`, the
buffer length in samples, the split size in bytes, the byte offset
after the metadata block (`pos_prev = fid.tell()`), the serialized byte
length of a buffer of a given sample count, the byte length of a skip
marker, the declared acquisition-skip intervals, the drop-small-buffer
option, the reserved trailer size `_NEXT_FILE_BUFFER` (a fixed constant
defined outside this excerpt, kept symbolic), and the next split file
name and current part index. -/
structure WCfg where
  startS : ℕ
  stopS : ℕ
  bufferSize : ℕ
  splitSize : ℕ
  posMeta : ℕ
  bufBytes : ℕ → ℕ
  skipBytes : ℕ
  skOnsets : List ℕ
  skEnds : List ℕ
  dropSmallBuffer : Bool
  nextFileBufferBytes : ℕ
  nextFname : String
  partIdx : ℕ

/-- Mutable state of the buffer-writing loop: current byte position,
the byte position after the previous buffer (`pos_prev`), the pending
skip run length, the next sample to be written by a subsequent file
(`new_start`), and the emitted events. -/
structure WState where
  pos : ℕ
  posPrev : ℕ
  nCurrentSkip : ℕ
  newStart : ℕ
  events : List WEvent
  deriving Repr

/-- Outcome of handling one `(first, last)` buffer: continue with the
next buffer, break out of the loop, or abort with an error. -/
inductive StepRes where
  | cont (st : WState)
  | halt (st : WState)
  | fail (msg : String)
  deriving Repr

/-- One iteration of the buffer loop of `_write_raw_data`: count a
skipped buffer; flush a pending skip run as one marker; honor the
drop-small-buffer break; write the buffer; fail when the position
overshoots `split_size - _NEXT_FILE_BUFFER`; then split (emit the
forward reference and break) exactly when
`pos >= split_size - this_buff_size_bytes - _NEXT_FILE_BUFFER` and
`first + buffer_size < stop`. -/
def writeBufferStep (cfg : WCfg) (doSkips : Bool) (first last : ℕ) (st : WState) :
    StepRes :=
  if doSkips && (cfg.skOnsets.zip cfg.skEnds).any
      (fun p => decide (p.1 ≤ first) && decide (last ≤ p.2)) then
    .cont { st with nCurrentSkip := st.nCurrentSkip + 1 }
  else
    let st1 := if doSkips && decide (0 < st.nCurrentSkip) then
        { st with pos := st.pos + cfg.skipBytes, nCurrentSkip := 0,
                  events := st.events ++ [WEvent.skip st.nCurrentSkip] }
      else st
    if cfg.dropSmallBuffer && decide (cfg.startS < first) &&
        decide (last - first < cfg.bufferSize) then
      .halt st1
    else
      let pos := st1.pos + cfg.bufBytes (last - first)
      let thisBuffBytes := pos - st1.posPrev
      if 0 < (pos : ℤ) - cfg.splitSize + cfg.nextFileBufferBytes then
        .fail "buffer size is too large for the given split size"
      else
        let ev2 := st1.events ++ [WEvent.buffer first last]
        let st2 := { st1 with pos := pos, newStart := last, events := ev2 }
        if (cfg.splitSize : ℤ) - thisBuffBytes - cfg.nextFileBufferBytes ≤ pos ∧
            first + cfg.bufferSize < cfg.stopS then
          .halt { st2 with
            events := st2.events ++ [WEvent.nextFileRef cfg.nextFname (cfg.partIdx + 1)] }
        else
          .cont { st2 with posPrev := pos }

/-- The buffer loop of `_write_raw_data` over the `(first, last)`
pairs. -/
def writeLoop (cfg : WCfg) (doSkips : Bool) :
    List (ℕ × ℕ) → WState → Except String WState
  | [], st => .ok st
  | (first, last) :: rest, st =>
    match writeBufferStep cfg doSkips first last st with
    | .cont st2 => writeLoop cfg doSkips rest st2
    | .halt st2 => .ok st2
    | .fail msg => .error msg

/-- The buffer onsets `firsts = range(start, stop, buffer_size)`. -/
def bufferFirsts (cfg : WCfg) : List ℕ :=
  List.range' cfg.startS ((cfg.stopS - cfg.startS + cfg.bufferSize - 1) / cfg.bufferSize)
    cfg.bufferSize

/-- The buffer ends `lasts = firsts + buffer_size`, final entry clamped
to `stop`. -/
def bufferLasts (cfg : WCfg) : List ℕ :=
  modifyLast (fun x => if cfg.stopS < x then cfg.stopS else x)
    ((bufferFirsts cfg).map (fun f => f + cfg.bufferSize))

/-- Whether the declared acquisition skips align exactly with buffer
boundaries (`np.isin(sk_onsets, firsts).all() and np.isin(sk_ends, lasts).all()`);
misaligned skips fall back to explicit zero data. -/
def doSkipsFlag (cfg : WCfg) : Bool :=
  if 0 < cfg.skOnsets.length then
    cfg.skOnsets.all (fun o => (bufferFirsts cfg).contains o) &&
      cfg.skEnds.all (fun e => (bufferLasts cfg).contains e)
  else false

/-- `_write_raw_data` for one output file: fail when the metadata block
alone already exceeds `split_size`, then run the buffer loop; the
result is the next sample to write (`new_start`) and the emitted
events. -/
def writeRawData (cfg : WCfg) : Except String (ℕ × List WEvent) :=
  if cfg.splitSize < cfg.posMeta then
    .error "file is larger than split_size after writing measurement information"
  else
    match writeLoop cfg (doSkipsFlag cfg)
        ((bufferFirsts cfg).zip (bufferLasts cfg))
        ⟨cfg.posMeta, cfg.posMeta, 0, cfg.startS, []⟩ with
    | .ok st => .ok (st.newStart, st.events)
    | .error m => .error m

/-- `_RawFidWriter.write`: bounds check, write the data block, and
signal a further split exactly when samples remain
(`is_next_split = self.start < self.stop`). -/
def rawFidWriterWrite (cfg : WCfg) (nTimesMax : ℕ) :
    Except String (ℕ × List WEvent × Bool) :=
  if cfg.stopS ≤ cfg.startS ∨ nTimesMax < cfg.stopS then
    .error "cannot write raw file with no data"
  else
    match writeRawData cfg with
    | .ok (ns, ev) => .ok (ns, ev, decide (ns < cfg.stopS))
    | .error m => .error m

/-! ### Semantic helpers used to state and prove the reader theorems. -/

/-- Locate the constituent file containing a global sample, walking the
per-file lengths. -/
def fosAux : List ℕ → ℕ → ℕ
  | [], _ => 0
  | l :: rest, g => if g < l then 0 else fosAux rest (g - l) + 1

/-- Cumulative sums of a length list (list-level version of `cumulLen`). -/
def cumulOf (lens : List ℕ) (k : ℕ) : ℕ := (lens.take k).sum

/-- The index of the constituent file containing global sample `g`. -/
def fileOfSample (r : Raw) (g : ℕ) : ℕ := fosAux (rawLengths r) g

/-- Reference semantics of one assembled output entry: the value the
segment reader must produce for output channel `i` at global sample
`g`, through either the scalar calibration path or the dense multiplier
path. -/
def segValueAt (r : Raw) (cm : CalsMult) (i g : ℕ) : ℚ :=
  let fi := fileOfSample r g
  let loc := r.firstSamps.getD fi 0 + (g - cumulLen r fi)
  let fd := r.fileData.getD fi (fun _ _ => 0)
  let pick := r.readPicks.getD fi id
  match cm.cals with
  | some c => c i * fd (pick (cm.needIdx.getD i 0)) loc
  | none =>
    match cm.mult with
    | some m => ∑ k ∈ Finset.range cm.needIdx.length, m i k * fd (pick (cm.needIdx.getD k 0)) loc
    | none => 0

/-! ### Concrete containers used to instantiate the theorems. -/

/-- A concrete in-memory data buffer. -/
def dataW : ℕ → ℕ → ℚ := fun ch t => (ch : ℚ) * 100 + t

/-- A concrete preloaded two-channel single-file container. -/
def rawW : Raw where
  nchan := 2
  sfreq := 1000
  firstSamps := [0]
  lastSamps := [4]
  readPicks := [fun ch => ch]
  fileData := [fun ch t => (ch : ℚ) * 10 + t]
  cals := fun ch => if ch = 0 then 1 else 2
  comp := none
  projector := none
  preload := some dataW
  croppedSamp := 0
  annotations := []
  compGrade := 0
  readCompGrade := 0
  projApplied := false

/-- A concrete two-channel two-file on-demand container. -/
def rawW2 : Raw where
  nchan := 2
  sfreq := 1000
  firstSamps := [0, 10]
  lastSamps := [4, 12]
  readPicks := [fun ch => ch, fun ch => ch]
  fileData := [fun ch t => (ch : ℚ) * 10 + t, fun ch t => 1000 + (ch : ℚ) * 10 + t]
  cals := fun ch => if ch = 0 then 1 else 2
  comp := none
  projector := none
  preload := none
  croppedSamp := 3
  annotations := []
  compGrade := 0
  readCompGrade := 0
  projApplied := false

/-- A concrete preloaded container with one bad annotation covering
samples [100, 200). -/
def rawC4 : Raw where
  nchan := 2
  sfreq := 1000
  firstSamps := [0]
  lastSamps := [399]
  readPicks := [fun ch => ch]
  fileData := [fun _ _ => 0]
  cals := fun _ => 1
  comp := none
  projector := none
  preload := some dataW
  croppedSamp := 0
  annotations := [⟨100, 100, "BAD_test"⟩]
  compGrade := 0
  readCompGrade := 0
  projApplied := false

/-- Writer configuration exhibiting a split after the first buffer with
only a short final buffer left: 15 samples in buffers of 10, a split
size of 20 bytes against buffers of 5 + n bytes, 3 bytes of metadata
and a 2-byte reserved trailer. -/
def cfgC2 : WCfg where
  startS := 0
  stopS := 15
  bufferSize := 10
  splitSize := 20
  posMeta := 3
  bufBytes := fun n => n + 5
  skipBytes := 1
  skOnsets := []
  skEnds := []
  dropSmallBuffer := false
  nextFileBufferBytes := 2
  nextFname := "next"
  partIdx := 0

/-- Writer configuration whose first buffer alone cannot fit within
the split size after the metadata block and the reserved trailer. -/
def cfgC8 : WCfg where
  startS := 0
  stopS := 5
  bufferSize := 10
  splitSize := 20
  posMeta := 3
  bufBytes := fun n => n + 20
  skipBytes := 1
  skOnsets := []
  skEnds := []
  dropSmallBuffer := false
  nextFileBufferBytes := 2
  nextFname := "next"
  partIdx := 0

/-! ## Basic list and length lemmas. -/

theorem getD_map_of_lt (f : ℕ → ℕ) (l : List ℕ) (k : ℕ) (h : k < l.length) :
    (l.map f).getD k 0 = f (l.getD k 0) := by
  rw [List.getD_eq_getElem _ _ (by simpa using h), List.getD_eq_getElem _ _ h,
    List.getElem_map]

theorem rawLengths_length (r : Raw) (hwf : wf r) :
    (rawLengths r).length = numFiles r := by
  obtain ⟨h1, -, -, -, -⟩ := hwf
  simp [rawLengths, numFiles, h1]

theorem rawLengths_getD (r : Raw) (hwf : wf r) (i : ℕ) (h : i < numFiles r) :
    (rawLengths r).getD i 0 = r.lastSamps.getD i 0 - r.firstSamps.getD i 0 + 1 := by
  have hlen : i < (rawLengths r).length := by rw [rawLengths_length r hwf]; exact h
  have h1 : i < r.firstSamps.length := h
  have h2 : i < r.lastSamps.length := by rw [hwf.1]; exact h
  rw [List.getD_eq_getElem _ _ hlen, List.getD_eq_getElem _ _ h1,
    List.getD_eq_getElem _ _ h2]
  simp [rawLengths]

theorem rawLengths_getD_pos (r : Raw) (hwf : wf r) (i : ℕ) (h : i < numFiles r) :
    0 < (rawLengths r).getD i 0 := by
  rw [rawLengths_getD r hwf i h]; omega

theorem cumulLen_eq_cumulOf (r : Raw) (k : ℕ) :
    cumulLen r k = cumulOf (rawLengths r) k := rfl

theorem cumulOf_zero (lens : List ℕ) : cumulOf lens 0 = 0 := rfl

theorem cumulOf_succ (lens : List ℕ) (k : ℕ) (h : k < lens.length) :
    cumulOf lens (k + 1) = cumulOf lens k + lens.getD k 0 := by
  rw [cumulOf, cumulOf, List.take_succ, List.sum_append,
    List.getElem?_eq_getElem h, List.getD_eq_getElem _ _ h]
  simp

theorem cumulLen_succ (r : Raw) (hwf : wf r) (k : ℕ) (h : k < numFiles r) :
    cumulLen r (k + 1) = cumulLen r k + (rawLengths r).getD k 0 := by
  rw [cumulLen_eq_cumulOf, cumulLen_eq_cumulOf,
    cumulOf_succ _ _ (by rw [rawLengths_length r hwf]; exact h)]

theorem cumulOf_mono (lens : List ℕ) {k m : ℕ} (h : k ≤ m) :
    cumulOf lens k ≤ cumulOf lens m := by
  have htake : lens.take k = (lens.take m).take k := by
    rw [List.take_take, min_eq_left h]
  rw [cumulOf, cumulOf, htake]
  exact List.Sublist.sum_le_sum (List.take_sublist _ _) (by intro x _; positivity)

theorem cumulLen_mono (r : Raw) {k m : ℕ} (h : k ≤ m) :
    cumulLen r k ≤ cumulLen r m := cumulOf_mono _ h

theorem cumulLen_lt_succ (r : Raw) (hwf : wf r) {k : ℕ}
    (hm : k < numFiles r) : cumulLen r k < cumulLen r (k + 1) := by
  rw [cumulLen_succ r hwf k hm]
  have := rawLengths_getD_pos r hwf k hm
  omega

theorem cumulLen_top (r : Raw) (hwf : wf r) {k : ℕ} (h : numFiles r ≤ k) :
    cumulLen r k = nTimes r := by
  rw [cumulLen_eq_cumulOf, cumulOf, nTimes, List.take_of_length_le]
  rw [rawLengths_length r hwf]; exact h

theorem cumulOf_cons (l : ℕ) (rest : List ℕ) (k : ℕ) :
    cumulOf (l :: rest) (k + 1) = l + cumulOf rest k := by
  simp [cumulOf, List.take_succ_cons]

theorem fosAux_lt (lens : List ℕ) (g : ℕ) (h : g < lens.sum) :
    fosAux lens g < lens.length := by
  induction lens generalizing g with
  | nil => simp at h
  | cons l rest ih =>
    by_cases hg : g < l
    · simp [fosAux, hg]
    · have hsum : g - l < rest.sum := by simp at h; omega
      simp only [fosAux, if_neg hg, List.length_cons]
      exact Nat.succ_lt_succ (ih _ hsum)

theorem fosAux_spec (lens : List ℕ) (g : ℕ) (h : g < lens.sum) :
    cumulOf lens (fosAux lens g) ≤ g ∧ g < cumulOf lens (fosAux lens g + 1) := by
  induction lens generalizing g with
  | nil => simp at h
  | cons l rest ih =>
    by_cases hg : g < l
    · simp only [fosAux, if_pos hg]
      refine ⟨by simp [cumulOf], ?_⟩
      rw [Nat.zero_add, cumulOf_cons]
      omega
    · have hsum : g - l < rest.sum := by simp at h; omega
      have hl : l ≤ g := by omega
      obtain ⟨ih1, ih2⟩ := ih (g - l) hsum
      simp only [fosAux, if_neg hg]
      rw [cumulOf_cons, cumulOf_cons]
      omega

theorem fosAux_eq (lens : List ℕ) (g fi : ℕ)
    (h1 : cumulOf lens fi ≤ g) (h2 : g < cumulOf lens (fi + 1)) :
    fosAux lens g = fi := by
  induction lens generalizing g fi with
  | nil =>
    exfalso
    have : cumulOf ([] : List ℕ) (fi + 1) = 0 := by simp [cumulOf]
    omega
  | cons l rest ih =>
    cases fi with
    | zero =>
      have h3 := cumulOf_cons l rest 0
      have h4 := cumulOf_zero rest
      have hl : g < l := by omega
      simp [fosAux, hl]
    | succ fi2 =>
      have hcons1 := cumulOf_cons l rest fi2
      have hcons2 := cumulOf_cons l rest (fi2 + 1)
      have hl : l ≤ g := by omega
      simp only [fosAux, if_neg (by omega : ¬g < l)]
      have := ih (g - l) fi2 (by omega) (by omega)
      omega

theorem fosAux_mono (lens : List ℕ) {g g2 : ℕ} (h : g ≤ g2) :
    fosAux lens g ≤ fosAux lens g2 := by
  induction lens generalizing g g2 with
  | nil => simp [fosAux]
  | cons l rest ih =>
    by_cases hg : g < l
    · simp [fosAux, hg]
    · have hg2 : ¬g2 < l := by omega
      simp only [fosAux, if_neg hg, if_neg hg2]
      exact Nat.succ_le_succ (ih (by omega))

theorem fileOfSample_lt (r : Raw) (hwf : wf r) (g : ℕ) (h : g < nTimes r) :
    fileOfSample r g < numFiles r := by
  rw [← rawLengths_length r hwf]
  exact fosAux_lt _ _ h

theorem fileOfSample_spec (r : Raw) (g : ℕ) (h : g < nTimes r) :
    cumulLen r (fileOfSample r g) ≤ g ∧ g < cumulLen r (fileOfSample r g + 1) :=
  fosAux_spec _ _ h

theorem fileOfSample_eq (r : Raw) (g fi : ℕ)
    (h1 : cumulLen r fi ≤ g) (h2 : g < cumulLen r (fi + 1)) :
    fileOfSample r g = fi :=
  fosAux_eq _ _ _ h1 h2

theorem fileOfSample_mono (r : Raw) {g g2 : ℕ} (h : g ≤ g2) :
    fileOfSample r g ≤ fileOfSample r g2 :=
  fosAux_mono _ h

/-! ## Filters of `List.range` by interval predicates. -/

theorem filter_range_ge (p : ℕ → Bool) (lo : ℕ) :
    ∀ n, (∀ i, i < n → (p i = true ↔ lo ≤ i)) →
      (List.range n).filter p = List.range' lo (n - lo) := by
  intro n
  induction n with
  | zero => intro _; simp
  | succ n ih =>
    intro h
    rw [List.range_succ, List.filter_append,
      ih (fun i hi2 => h i (by omega))]
    by_cases hn : lo ≤ n
    · have hp : p n = true := (h n (by omega)).mpr hn
      have hsub : n + 1 - lo = (n - lo) + 1 := by omega
      have hval : lo + 1 * (n - lo) = n := by omega
      rw [hsub, List.range'_concat, hval]
      simp [hp]
    · have hp : p n = false := by
        cases hpn : p n with
        | false => rfl
        | true => exact absurd ((h n (by omega)).mp hpn) hn
      have h1 : n + 1 - lo = 0 := by omega
      have h2 : n - lo = 0 := by omega
      simp [hp, h1, h2]

theorem filter_range_truncate (p : ℕ → Bool) (hi : ℕ) :
    ∀ n, hi < n → (∀ i, hi < i → i < n → p i = false) →
      (List.range n).filter p = (List.range (hi + 1)).filter p := by
  intro n
  induction n with
  | zero => omega
  | succ n ih =>
    intro h1 h2
    by_cases hn : hi + 1 = n + 1
    · rw [hn]
    · have hlt : hi < n := by omega
      have hp : p n = false := h2 n hlt (by omega)
      rw [List.range_succ, List.filter_append,
        ih hlt (fun i a b => h2 i a (by omega))]
      simp [hp]

theorem filter_range_interval (p : ℕ → Bool) (lo hi n : ℕ) (h1 : hi < n)
    (h2 : ∀ i, i < n → (p i = true ↔ lo ≤ i ∧ i ≤ hi)) :
    (List.range n).filter p = List.range' lo (hi + 1 - lo) := by
  have hfalse : ∀ i, hi < i → i < n → p i = false := by
    intro i ha hb
    cases hpi : p i with
    | false => rfl
    | true => exact absurd ((h2 i hb).mp hpi).2 (by omega)
  rw [filter_range_truncate p hi n h1 hfalse]
  have := filter_range_ge p lo (hi + 1) (fun i hilt => by
    rw [h2 i (by omega)]
    omega)
  rw [this]

/-! ## Properties of the calibration composer. -/

theorem calcCalsMult_nOut (r : Raw) (idx : List ℕ) :
    (calcCalsMult r idx).nOut = idx.length := by
  unfold calcCalsMult
  cases multOp r <;> simp

theorem calcCalsMult_cals_needIdx (r : Raw) (idx : List ℕ) (c : ℕ → ℚ)
    (h : (calcCalsMult r idx).cals = some c) :
    (calcCalsMult r idx).needIdx = idx := by
  unfold calcCalsMult at h ⊢
  cases hm : multOp r with
  | none => rfl
  | some m0 =>
    rw [hm] at h
    simp at h

theorem calcCalsMult_needIdx_of_cals (r : Raw) (idx : List ℕ) :
    ∀ c, (calcCalsMult r idx).cals = some c →
      (calcCalsMult r idx).needIdx.length = (calcCalsMult r idx).nOut := by
  intro c h
  rw [calcCalsMult_cals_needIdx r idx c h, calcCalsMult_nOut]

/-! ## The per-file reader agrees with the reference semantics. -/

theorem readSegmentFile_eq_segValueAt (r : Raw) (cm : CalsMult)
    (hcm : ∀ c, cm.cals = some c → cm.needIdx.length = cm.nOut)
    (a startFile stopFile s g i : ℕ)
    (hfos : fileOfSample r g = a)
    (hloc : startFile + s = r.firstSamps.getD a 0 + (g - cumulLen r a))
    (hi2 : i < cm.nOut) :
    readSegmentFile r (cm.needIdx.map (r.readPicks.getD a id)) a startFile stopFile
      cm.cals cm.mult i s = segValueAt r cm i g := by
  unfold readSegmentFile segValueAt
  rw [hfos]
  cases hc : cm.cals with
  | some c =>
    have hlen : i < cm.needIdx.length := by rw [hcm c hc]; exact hi2
    simp only []
    rw [getD_map_of_lt _ _ _ hlen, hloc]
  | none =>
    cases hm : cm.mult with
    | some mm =>
      simp only [List.length_map]
      refine Finset.sum_congr rfl ?_
      intro k hk
      rw [getD_map_of_lt _ _ _ (Finset.mem_range.mp hk), hloc]
    | none => rfl

/-! ## Characterization of the file-assembly loop. -/

theorem readFilesLoop_spec (r : Raw) (cm : CalsMult) (hwf : wf r)
    (hcm : ∀ c, cm.cals = some c → cm.needIdx.length = cm.nOut)
    (start stop : ℕ) (hstop : stop ≤ nTimes r) :
    ∀ m a offset data,
      cumulLen r a ≤ start + offset →
      start + offset < cumulLen r (a + 1) →
      (offset = 0 ∨ start + offset = cumulLen r a) →
      start + offset < stop →
      a + m = fileOfSample r (stop - 1) + 1 →
      ∃ out, readFilesLoop r cm start stop (List.range' a m) offset data = .ok out ∧
        ∀ i, i < cm.nOut → ∀ t,
          out i t = if offset ≤ t ∧ t < stop - start then segValueAt r cm i (start + t)
                    else data i t := by
  intro m
  induction m with
  | zero =>
    intro a offset data h1 h2 h3 h4 h5
    exfalso
    have hg0 : start + offset ≤ stop - 1 := by omega
    have hfle : fileOfSample r (start + offset) ≤ fileOfSample r (stop - 1) :=
      fileOfSample_mono r hg0
    have hfeq : fileOfSample r (start + offset) = a := fileOfSample_eq r _ _ h1 h2
    omega
  | succ m ih =>
    intro a offset data h1 h2 h3 h4 h5
    have hs1 : 1 ≤ stop := by omega
    have hlast : stop - 1 < nTimes r := by omega
    have hhiN : fileOfSample r (stop - 1) < numFiles r := fileOfSample_lt r hwf _ hlast
    have hfeq : fileOfSample r (start + offset) = a := fileOfSample_eq r _ _ h1 h2
    have hahi : a ≤ fileOfSample r (stop - 1) := by
      have := fileOfSample_mono r (show start + offset ≤ stop - 1 by omega)
      omega
    have haN : a < numFiles r := by omega
    have hcs : cumulLen r (a + 1) = cumulLen r a + (rawLengths r).getD a 0 :=
      cumulLen_succ r hwf a haN
    have hlna : (rawLengths r).getD a 0 =
        r.lastSamps.getD a 0 - r.firstSamps.getD a 0 + 1 := rawLengths_getD r hwf a haN
    have hfl : r.firstSamps.getD a 0 ≤ r.lastSamps.getD a 0 := hwf.2.2.2.2 a haN
    set fs := r.firstSamps.getD a 0 with hfs
    set ls := r.lastSamps.getD a 0 with hls
    -- canonical forms of the per-file window
    have hsf : (if offset = 0 then fs + (start - cumulLen r a) else fs) =
        fs + (start + offset - cumulLen r a) := by
      by_cases hoff : offset = 0
      · rw [if_pos hoff]; omega
      · rw [if_neg hoff]
        rcases h3 with h3 | h3
        · omega
        · omega
    set startFile := fs + (start + offset - cumulLen r a) with hsfdef
    have hguard : ¬(startFile < fs ∨ min (stop - cumulLen r a + fs) (ls + 1) < startFile) := by
      rw [hsfdef]
      have hle1 : fs + (start + offset - cumulLen r a) ≤ stop - cumulLen r a + fs := by
        omega
      have hle2 : fs + (start + offset - cumulLen r a) ≤ ls + 1 := by omega
      omega
    rw [List.range'_succ]
    simp only [readFilesLoop]
    rw [hsf]
    rw [if_neg hguard]
    by_cases hA : stop ≤ cumulLen r (a + 1)
    · -- final used file
      have hstopFile : min (stop - cumulLen r a + fs) (ls + 1) = stop - cumulLen r a + fs := by
        omega
      have hm0 : m = 0 := by
        have : fileOfSample r (stop - 1) = a := fileOfSample_eq r _ _ (by omega) (by omega)
        omega
      subst hm0
      rw [hstopFile]
      simp only [List.range', readFilesLoop]
      refine ⟨_, rfl, ?_⟩
      intro i hi2 t
      have hnRead : stop - cumulLen r a + fs - startFile = stop - (start + offset) := by
        rw [hsfdef]; omega
      rw [hnRead]
      unfold writeSlice
      by_cases ht : offset ≤ t ∧ t < offset + (stop - (start + offset))
      · rw [if_pos ht, if_pos (by omega)]
        exact readSegmentFile_eq_segValueAt r cm hcm a startFile _ (t - offset)
          (start + t) i
          (fileOfSample_eq r _ _ (by omega) (by omega))
          (by rw [hsfdef]; omega) hi2
      · rw [if_neg ht, if_neg (by omega)]
    · -- the range continues into the next file
      push_neg at hA
      have hstopFile : min (stop - cumulLen r a + fs) (ls + 1) = ls + 1 := by
        omega
      rw [hstopFile]
      have hnRead : ls + 1 - startFile = cumulLen r (a + 1) - (start + offset) := by
        rw [hsfdef]; omega
      have hnext : a + 1 ≤ fileOfSample r (stop - 1) := by
        by_contra hcon
        have hha : fileOfSample r (stop - 1) ≤ a := by omega
        have := (fileOfSample_spec r (stop - 1) hlast).2
        have hmono := cumulLen_mono r (show fileOfSample r (stop - 1) + 1 ≤ a + 1 by omega)
        omega
      have hnextN : a + 1 < numFiles r := by omega
      have hcn : cumulLen r (a + 1) < cumulLen r (a + 1 + 1) := cumulLen_lt_succ r hwf hnextN
      obtain ⟨out, hrun, hprop⟩ := ih (a + 1) (offset + (ls + 1 - startFile))
        (writeSlice data offset (ls + 1 - startFile)
          (readSegmentFile r (cm.needIdx.map (r.readPicks.getD a id)) a startFile (ls + 1)
            cm.cals cm.mult))
        (by rw [hnRead]; omega) (by rw [hnRead]; omega)
        (by rw [hnRead]; omega) (by rw [hnRead]; omega) (by omega)
      refine ⟨out, hrun, ?_⟩
      intro i hi2 t
      rw [hprop i hi2 t]
      have hoffRead : offset + (ls + 1 - startFile) = cumulLen r (a + 1) - start := by
        rw [hnRead]; omega
      by_cases ht1 : offset + (ls + 1 - startFile) ≤ t ∧ t < stop - start
      · rw [if_pos ht1, if_pos (by omega)]
      · rw [if_neg ht1]
        unfold writeSlice
        by_cases ht2 : offset ≤ t ∧ t < offset + (ls + 1 - startFile)
        · rw [if_pos ht2, if_pos (by omega)]
          exact readSegmentFile_eq_segValueAt r cm hcm a startFile _ (t - offset)
            (start + t) i
            (fileOfSample_eq r _ _ (by omega) (by omega))
            (by rw [hsfdef]; omega) hi2
        · rw [if_neg ht2, if_neg (by omega)]

/-! ## Characterization of `_read_segment`. -/

theorem clampStop_le_nTimes (r : Raw) (stop? : Option ℕ) :
    clampStop r stop? ≤ nTimes r := by
  cases stop? <;> simp [clampStop]

theorem filesUsed_eq (r : Raw) (hwf : wf r) (start stop : ℕ)
    (h1 : start < stop) (h2 : stop ≤ nTimes r) :
    filesUsed r start stop =
      List.range' (fileOfSample r start)
        (fileOfSample r (stop - 1) + 1 - fileOfSample r start) := by
  have hlast : stop - 1 < nTimes r := by omega
  have hlo := fileOfSample_spec r start (by omega)
  have hhi := fileOfSample_spec r (stop - 1) hlast
  apply filter_range_interval _ _ _ _ (fileOfSample_lt r hwf _ hlast)
  intro i hiN
  rw [Bool.and_eq_true, decide_eq_true_eq, decide_eq_true_eq]
  constructor
  · rintro ⟨hi1, hi2⟩
    constructor
    · by_contra hcon
      have : cumulLen r (i + 1) ≤ cumulLen r (fileOfSample r start) :=
        cumulLen_mono r (by omega)
      omega
    · by_contra hcon
      have : cumulLen r (fileOfSample r (stop - 1) + 1) ≤ cumulLen r i :=
        cumulLen_mono r (by omega)
      omega
  · rintro ⟨hi1, hi2⟩
    constructor
    · have : cumulLen r (fileOfSample r start + 1) ≤ cumulLen r (i + 1) :=
        cumulLen_mono r (by omega)
      omega
    · have : cumulLen r i ≤ cumulLen r (fileOfSample r (stop - 1)) :=
        cumulLen_mono r hi2
      omega

theorem readSegment_spec (r : Raw) (hwf : wf r) (start : ℕ) (stop? : Option ℕ)
    (sel : Option (List ℕ)) (h : start < clampStop r stop?) :
    ∃ out, readSegment r start stop? sel = .ok out ∧
      ∀ i, i < (selIdx r sel).length → ∀ t, t < clampStop r stop? - start →
        out i t = segValueAt r (calcCalsMult r (selIdx r sel)) i (start + t) := by
  have hstopN : clampStop r stop? ≤ nTimes r := clampStop_le_nTimes r stop?
  have hlast : clampStop r stop? - 1 < nTimes r := by omega
  have hlo := fileOfSample_spec r start (by omega)
  have hlohi : fileOfSample r start ≤ fileOfSample r (clampStop r stop? - 1) :=
    fileOfSample_mono r (by omega)
  obtain ⟨out, hrun, hprop⟩ := readFilesLoop_spec r (calcCalsMult r (selIdx r sel)) hwf
    (calcCalsMult_needIdx_of_cals r _) start (clampStop r stop?) hstopN
    (fileOfSample r (clampStop r stop? - 1) + 1 - fileOfSample r start)
    (fileOfSample r start) 0 (fun _ _ => 0)
    (by simpa using hlo.1) (by simpa using hlo.2) (Or.inl rfl) (by omega) (by omega)
  refine ⟨out, ?_, ?_⟩
  · simp only [readSegment]
    rw [if_neg (by omega), filesUsed_eq r hwf start (clampStop r stop?) h hstopN]
    exact hrun
  · intro i hi2 t ht
    have hp := hprop i (by rw [calcCalsMult_nOut]; exact hi2) t
    rw [hp, if_pos (by omega)]

/-- C6: for every read request in which the start sample is at or past
the clamped stop sample, `_read_segment` raises the range error and
returns no data; for a start strictly before the clamped stop it
succeeds. -/
theorem c6_read_segment_range_check (r : Raw) (hwf : wf r) (start : ℕ)
    (stop? : Option ℕ) (sel : Option (List ℕ)) :
    (clampStop r stop? ≤ start →
      readSegment r start stop? sel = .error "No data in this range") ∧
    (start < clampStop r stop? →
      ∃ out, readSegment r start stop? sel = .ok out) := by
  constructor
  · intro h
    simp only [readSegment]
    rw [if_pos h]
  · intro h
    obtain ⟨out, hrun, -⟩ := readSegment_spec r hwf start stop? sel h
    exact ⟨out, hrun⟩

theorem c6_witness :
    readSegment rawW2 9 (some 100) none = .error "No data in this range" ∧
    ∃ out, readSegment rawW2 2 (some 6) none = .ok out := by
  constructor
  · exact (c6_read_segment_range_check rawW2 (by decide) 9 (some 100) none).1 (by decide)
  · exact (c6_read_segment_range_check rawW2 (by decide) 2 (some 6) none).2 (by decide)

/-- C9: a segment read whose requested stop exceeds the total sample
count (or is omitted) does not fail: the stop is silently clamped to
`n_times`, so the result equals reading `[start, n_times)`. -/
theorem c9_stop_clamped (r : Raw) (hwf : wf r) (start stop : ℕ)
    (sel : Option (List ℕ)) (h1 : start < nTimes r) (h2 : nTimes r ≤ stop) :
    readSegment r start (some stop) sel = readSegment r start none sel ∧
    readSegment r start (some stop) sel = readSegment r start (some (nTimes r)) sel ∧
    ∃ out, readSegment r start (some stop) sel = .ok out := by
  have hc1 : clampStop r (some stop) = clampStop r none := by
    simp [clampStop]
    omega
  have hc2 : clampStop r (some stop) = clampStop r (some (nTimes r)) := by
    simp [clampStop]
    omega
  refine ⟨?_, ?_, ?_⟩
  · simp only [readSegment, hc1]
  · simp only [readSegment, hc2]
  · obtain ⟨out, hrun, -⟩ := readSegment_spec r hwf start (some stop) sel
      (by simp [clampStop]; omega)
    exact ⟨out, hrun⟩

theorem c9_witness :
    readSegment rawW2 2 (some 100) none = readSegment rawW2 2 none none ∧
    readSegment rawW2 2 (some 100) none = readSegment rawW2 2 (some (nTimes rawW2)) none ∧
    ∃ out, readSegment rawW2 2 (some 100) none = .ok out :=
  c9_stop_clamped rawW2 (by decide) 2 100 none (by decide) (by decide)

/-! ## C7: exclusivity of the scalar and dense read paths. -/

theorem multOp_eq_none_iff (r : Raw) :
    multOp r = none ↔ r.comp = none ∧ r.projector = none := by
  unfold multOp
  cases hc : r.comp <;> cases hp : r.projector <;> simp

theorem calcCalsMult_mult_none_iff (r : Raw) (idx : List ℕ) :
    (calcCalsMult r idx).mult = none ↔ multOp r = none := by
  unfold calcCalsMult
  cases hm : multOp r <;> simp

/-- C7: in every segment read exactly one of the scalar calibration
path and the dense multiplier path is active, never both and never
neither; the scalar path is taken exactly when neither compensation nor
projection applies, in which case `cals` is the selection-indexed
calibration vector, and otherwise `mult` is the combined operator
sub-indexed by the selection, scaled by the calibrations and restricted
to the needed input channels. -/
theorem c7_cals_mult_exclusive (r : Raw) (idx : List ℕ) :
    (((calcCalsMult r idx).cals.isSome ∧ (calcCalsMult r idx).mult = none) ∨
      ((calcCalsMult r idx).cals = none ∧ (calcCalsMult r idx).mult.isSome)) ∧
    ((r.comp = none ∧ r.projector = none) ↔ (calcCalsMult r idx).mult = none) ∧
    ((calcCalsMult r idx).mult = none →
      (calcCalsMult r idx).cals = some (fun i => r.cals (idx.getD i 0))) ∧
    (∀ m0, multOp r = some m0 →
      (calcCalsMult r idx).mult = some (fun i k =>
        m0 (idx.getD i 0) ((calcCalsMult r idx).needIdx.getD k 0) *
          r.cals ((calcCalsMult r idx).needIdx.getD k 0))) := by
  refine ⟨?_, ?_, ?_, ?_⟩
  · unfold calcCalsMult
    cases hm : multOp r <;> simp
  · rw [calcCalsMult_mult_none_iff, multOp_eq_none_iff]
  · intro h
    rw [calcCalsMult_mult_none_iff] at h
    unfold calcCalsMult
    rw [h]
  · intro m0 hm
    unfold calcCalsMult
    rw [hm]

theorem c7_witness :
    (calcCalsMult rawW [0, 1]).mult = none ∧
    (calcCalsMult rawW [0, 1]).cals = some (fun i => rawW.cals ([0, 1].getD i 0)) := by
  have h := c7_cals_mult_exclusive rawW [0, 1]
  have hm : (calcCalsMult rawW [0, 1]).mult = none := h.2.1.mp ⟨rfl, rfl⟩
  exact ⟨hm, h.2.2.1 hm⟩

/-! ## C1: the preloaded indexed read is an exact slice. -/

/-- C1: on a preloaded container, the indexed read over a valid window
returns exactly the slice `data[channels, start:stop]` of the in-memory
backing buffer; the buffer itself is only read, never written. -/
theorem c1_preloaded_getitem (r : Raw) (d : ℕ → ℕ → ℚ) (sel : List ℕ)
    (start stop : ℕ) (hpre : r.preload = some d) (h1 : start < stop)
    (h2 : stop ≤ nTimes r) :
    getitemData r (some sel) start stop =
      .ok (fun i t => d (sel.getD i 0) (start + t)) := by
  simp [getitemData, hpre, selIdx]

theorem c1_witness :
    getitemData rawW (some [1, 0]) 1 4 =
      .ok (fun i t => dataW ([1, 0].getD i 0) (1 + t)) :=
  c1_preloaded_getitem rawW dataW [1, 0] 1 4 rfl (by decide) (by decide)

/-! ## List surgery lemmas for the crop proofs. -/

theorem modifyHead_getD (f : ℕ → ℕ) (l : List ℕ) (j : ℕ) (d : ℕ) (hl : l ≠ []) :
    (l.modifyHead f).getD j d = if j = 0 then f (l.getD 0 d) else l.getD j d := by
  cases l with
  | nil => exact absurd rfl hl
  | cons x xs =>
    cases j with
    | zero => simp
    | succ n => simp

theorem modifyLast_length (f : ℕ → ℕ) (l : List ℕ) :
    (modifyLast f l).length = l.length := by
  induction l with
  | nil => rfl
  | cons x xs ih =>
    cases xs with
    | nil => rfl
    | cons y ys =>
      show (x :: modifyLast f (y :: ys)).length = (x :: y :: ys).length
      simp only [List.length_cons]
      rw [ih]
      simp

theorem modifyLast_getD (f : ℕ → ℕ) (l : List ℕ) (j : ℕ) (d : ℕ) (hj : j < l.length) :
    (modifyLast f l).getD j d =
      if j = l.length - 1 then f (l.getD j d) else l.getD j d := by
  induction l generalizing j with
  | nil => simp at hj
  | cons x xs ih =>
    cases xs with
    | nil =>
      have hj0 : j = 0 := by simp at hj; omega
      subst hj0
      simp [modifyLast]
    | cons y ys =>
      cases j with
      | zero =>
        have hne : (0 : ℕ) ≠ (x :: y :: ys).length - 1 := by
          simp only [List.length_cons]
          omega
        show (x :: modifyLast f (y :: ys)).getD 0 d = _
        rw [if_neg hne]
        simp
      | succ n =>
        have hn : n < (y :: ys).length := by simp at hj ⊢; omega
        show (x :: modifyLast f (y :: ys)).getD (n + 1) d = _
        rw [List.getD_cons_succ, ih n hn]
        by_cases hcase : n = (y :: ys).length - 1
        · rw [if_pos hcase, if_pos (by simp at hcase ⊢; omega)]
          rw [List.getD_cons_succ]
        · rw [if_neg hcase, if_neg (by simp at hcase ⊢; omega)]
          rw [List.getD_cons_succ]

theorem range'_headD (lo k : ℕ) (hk : k ≠ 0) : (List.range' lo k).headD 0 = lo := by
  obtain ⟨k2, rfl⟩ : ∃ k2, k = k2 + 1 := ⟨k - 1, by omega⟩
  rw [List.range'_succ]
  rfl

theorem range'_getLastD (lo k : ℕ) (hk : k ≠ 0) :
    (List.range' lo k).getLastD 0 = lo + k - 1 := by
  rw [List.getLastD_eq_getLast?, List.getLast?_range', if_neg hk]
  rfl

theorem range'_map_getD {α : Type} (f : ℕ → α) (lo k j : ℕ) (d : α) (hj : j < k) :
    ((List.range' lo k).map f).getD j d = f (lo + j) := by
  have hlen : j < ((List.range' lo k).map f).length := by simpa using hj
  rw [List.getD_eq_getElem _ _ hlen, List.getElem_map, List.getElem_range']
  simp

/-! ## Structure of the cropped container. -/

theorem cropKeepers_eq_filesUsed (r : Raw) (smin smax : ℕ) :
    cropKeepers r smin smax = filesUsed r smin (smax + 1) := by
  unfold cropKeepers filesUsed
  simp

theorem cropKeepers_eq (r : Raw) (hwf : wf r) (smin smax : ℕ)
    (hle : smin ≤ smax) (hmax : smax < nTimes r) :
    cropKeepers r smin smax =
      List.range' (fileOfSample r smin)
        (fileOfSample r smax + 1 - fileOfSample r smin) := by
  rw [cropKeepers_eq_filesUsed,
    filesUsed_eq r hwf smin (smax + 1) (by omega) (by omega)]
  simp

theorem crop_firstSamps_getD (r : Raw) (hwf : wf r) (smin smax : ℕ)
    (hle : smin ≤ smax) (hmax : smax < nTimes r) (j : ℕ)
    (hj : j < fileOfSample r smax + 1 - fileOfSample r smin) :
    (crop r smin smax).firstSamps.getD j 0 =
      if j = 0 then
        r.firstSamps.getD (fileOfSample r smin) 0 +
          (smin - cumulLen r (fileOfSample r smin))
      else r.firstSamps.getD (fileOfSample r smin + j) 0 := by
  have hlohi : fileOfSample r smin ≤ fileOfSample r smax := fileOfSample_mono r hle
  simp only [crop]
  rw [cropKeepers_eq r hwf smin smax hle hmax,
    range'_headD _ _ (by omega),
    modifyHead_getD _ _ _ _ (by simp [List.range'_eq_nil]; omega)]
  by_cases hj0 : j = 0
  · subst hj0
    rw [if_pos rfl, if_pos rfl, range'_map_getD _ _ _ _ _ (by omega)]
    simp
  · rw [if_neg hj0, if_neg hj0, range'_map_getD _ _ _ _ _ hj]

theorem crop_lastSamps_getD (r : Raw) (hwf : wf r) (smin smax : ℕ)
    (hle : smin ≤ smax) (hmax : smax < nTimes r) (j : ℕ)
    (hj : j < fileOfSample r smax + 1 - fileOfSample r smin) :
    (crop r smin smax).lastSamps.getD j 0 =
      if j = fileOfSample r smax - fileOfSample r smin then
        r.lastSamps.getD (fileOfSample r smax) 0 -
          (cumulLen r (fileOfSample r smax + 1) - 1 - smax)
      else r.lastSamps.getD (fileOfSample r smin + j) 0 := by
  have hlohi : fileOfSample r smin ≤ fileOfSample r smax := fileOfSample_mono r hle
  simp only [crop]
  rw [cropKeepers_eq r hwf smin smax hle hmax,
    range'_getLastD _ _ (by omega)]
  have hhi : fileOfSample r smin + (fileOfSample r smax + 1 - fileOfSample r smin) - 1 =
      fileOfSample r smax := by omega
  rw [hhi]
  have hlen : j < ((List.range' (fileOfSample r smin)
      (fileOfSample r smax + 1 - fileOfSample r smin)).map
      (fun fi => r.lastSamps.getD fi 0)).length := by simpa using hj
  rw [modifyLast_getD _ _ _ _ hlen]
  have hlenmap : ((List.range' (fileOfSample r smin)
      (fileOfSample r smax + 1 - fileOfSample r smin)).map
      (fun fi => r.lastSamps.getD fi 0)).length =
      fileOfSample r smax + 1 - fileOfSample r smin := by simp
  rw [hlenmap]
  by_cases hjl : j = fileOfSample r smax - fileOfSample r smin
  · rw [if_pos (by omega), if_pos hjl, range'_map_getD _ _ _ _ _ hj]
    have : fileOfSample r smin + j = fileOfSample r smax := by omega
    rw [this]
  · rw [if_neg (by omega), if_neg hjl, range'_map_getD _ _ _ _ _ hj]

theorem crop_readPicks_getD (r : Raw) (hwf : wf r) (smin smax : ℕ)
    (hle : smin ≤ smax) (hmax : smax < nTimes r) (j : ℕ)
    (hj : j < fileOfSample r smax + 1 - fileOfSample r smin) :
    (crop r smin smax).readPicks.getD j id =
      r.readPicks.getD (fileOfSample r smin + j) id := by
  simp only [crop]
  rw [cropKeepers_eq r hwf smin smax hle hmax, range'_map_getD _ _ _ _ _ hj]

theorem crop_fileData_getD (r : Raw) (hwf : wf r) (smin smax : ℕ)
    (hle : smin ≤ smax) (hmax : smax < nTimes r) (j : ℕ)
    (hj : j < fileOfSample r smax + 1 - fileOfSample r smin) :
    (crop r smin smax).fileData.getD j (fun _ _ => 0) =
      r.fileData.getD (fileOfSample r smin + j) (fun _ _ => 0) := by
  simp only [crop]
  rw [cropKeepers_eq r hwf smin smax hle hmax, range'_map_getD _ _ _ _ _ hj]

theorem crop_numFiles (r : Raw) (hwf : wf r) (smin smax : ℕ)
    (hle : smin ≤ smax) (hmax : smax < nTimes r) :
    numFiles (crop r smin smax) =
      fileOfSample r smax + 1 - fileOfSample r smin := by
  simp only [numFiles, crop]
  rw [cropKeepers_eq r hwf smin smax hle hmax]
  simp

theorem crop_wf (r : Raw) (hwf : wf r) (smin smax : ℕ)
    (hle : smin ≤ smax) (hmax : smax < nTimes r) :
    wf (crop r smin smax) := by
  have hlohi : fileOfSample r smin ≤ fileOfSample r smax := fileOfSample_mono r hle
  have hhiN : fileOfSample r smax < numFiles r := fileOfSample_lt r hwf _ hmax
  have hnf := crop_numFiles r hwf smin smax hle hmax
  have hkeep := cropKeepers_eq r hwf smin smax hle hmax
  refine ⟨?_, ?_, ?_, ?_, ?_⟩
  · simp only [crop, hkeep]
    rw [modifyLast_length]
    simp [numFiles]
  · simp only [crop, hkeep]
    simp [numFiles]
  · simp only [crop, hkeep]
    simp [numFiles]
  · rw [hnf]; omega
  · intro j hj
    rw [hnf] at hj
    rw [crop_firstSamps_getD r hwf smin smax hle hmax j hj,
      crop_lastSamps_getD r hwf smin smax hle hmax j hj]
    have hsmin := fileOfSample_spec r smin (by omega)
    have hsmax := fileOfSample_spec r smax hmax
    have hcs_lo := cumulLen_succ r hwf _ (by omega : fileOfSample r smin < numFiles r)
    have hcs_hi := cumulLen_succ r hwf _ hhiN
    have hlen_lo := rawLengths_getD r hwf _ (by omega : fileOfSample r smin < numFiles r)
    have hlen_hi := rawLengths_getD r hwf _ hhiN
    have hfl_lo := hwf.2.2.2.2 _ (by omega : fileOfSample r smin < numFiles r)
    have hfl_hi := hwf.2.2.2.2 _ hhiN
    by_cases hj0 : j = 0 <;> by_cases hjl : j = fileOfSample r smax - fileOfSample r smin
    · -- single kept file
      rw [if_pos hj0, if_pos hjl]
      have hlh : fileOfSample r smin = fileOfSample r smax := by omega
      rw [hlh] at hcs_lo hlen_lo ⊢
      omega
    · rw [if_pos hj0, if_neg hjl]
      have hj0' : fileOfSample r smin + j = fileOfSample r smin := by omega
      rw [hj0']
      omega
    · rw [if_neg hj0, if_pos hjl]
      have hjhi : fileOfSample r smin + j = fileOfSample r smax := by omega
      rw [hjhi]
      omega
    · rw [if_neg hj0, if_neg hjl]
      exact hwf.2.2.2.2 _ (by omega)

theorem crop_cumulLen (r : Raw) (hwf : wf r) (smin smax : ℕ)
    (hle : smin ≤ smax) (hmax : smax < nTimes r) (j : ℕ)
    (hj : j ≤ fileOfSample r smax + 1 - fileOfSample r smin) :
    cumulLen (crop r smin smax) j =
      min (cumulLen r (fileOfSample r smin + j) - smin) (smax + 1 - smin) := by
  have hlohi : fileOfSample r smin ≤ fileOfSample r smax := fileOfSample_mono r hle
  have hhiN : fileOfSample r smax < numFiles r := fileOfSample_lt r hwf _ hmax
  have hsmin := fileOfSample_spec r smin (by omega)
  have hsmax := fileOfSample_spec r smax hmax
  have hwfc := crop_wf r hwf smin smax hle hmax
  have hnf := crop_numFiles r hwf smin smax hle hmax
  induction j with
  | zero =>
    have h0 : cumulLen (crop r smin smax) 0 = 0 := rfl
    rw [h0, Nat.add_zero]
    omega
  | succ j ih =>
    have hjk : j < fileOfSample r smax + 1 - fileOfSample r smin := by omega
    rw [cumulLen_succ (crop r smin smax) hwfc j (by omega),
      ih (by omega),
      rawLengths_getD (crop r smin smax) hwfc j (by omega),
      crop_firstSamps_getD r hwf smin smax hle hmax j hjk,
      crop_lastSamps_getD r hwf smin smax hle hmax j hjk]
    have hnorm : fileOfSample r smin + (j + 1) = fileOfSample r smin + j + 1 :=
      (Nat.add_assoc _ _ _).symm
    rw [hnorm]
    have hcs_lo := cumulLen_succ r hwf _ (by omega : fileOfSample r smin < numFiles r)
    have hcs_hi := cumulLen_succ r hwf _ hhiN
    have hlen_lo := rawLengths_getD r hwf _ (by omega : fileOfSample r smin < numFiles r)
    have hlen_hi := rawLengths_getD r hwf _ hhiN
    have hfl_lo := hwf.2.2.2.2 _ (by omega : fileOfSample r smin < numFiles r)
    have hfl_hi := hwf.2.2.2.2 _ hhiN
    by_cases hj0 : j = 0 <;> by_cases hjl : j = fileOfSample r smax - fileOfSample r smin
    · -- single kept file: lo = hi, j = 0
      rw [if_pos hj0, if_pos hjl]
      have hlh : fileOfSample r smin = fileOfSample r smax := by omega
      subst hj0
      rw [← hlh] at hcs_hi hlen_hi hfl_hi hsmax ⊢
      simp only [Nat.add_zero, Nat.zero_add]
      omega
    · -- first of several kept files
      rw [if_pos hj0, if_neg hjl]
      subst hj0
      simp only [Nat.add_zero, Nat.zero_add]
      have hmono : cumulLen r (fileOfSample r smin + 1) ≤ cumulLen r (fileOfSample r smax) :=
        cumulLen_mono r (by omega)
      omega
    · -- last of several kept files
      rw [if_neg hj0, if_pos hjl]
      have hjhi : fileOfSample r smin + j = fileOfSample r smax := by omega
      rw [hjhi]
      have hmono : cumulLen r (fileOfSample r smin + 1) ≤ cumulLen r (fileOfSample r smax) :=
        cumulLen_mono r (by omega)
      omega
    · -- middle kept file
      rw [if_neg hj0, if_neg hjl]
      have hcs_j := cumulLen_succ r hwf (fileOfSample r smin + j) (by omega)
      have hlen_j := rawLengths_getD r hwf (fileOfSample r smin + j) (by omega)
      have hmono1 : cumulLen r (fileOfSample r smin + 1) ≤
          cumulLen r (fileOfSample r smin + j) := cumulLen_mono r (by omega)
      have hmono2 : cumulLen r (fileOfSample r smin + j + 1) ≤
          cumulLen r (fileOfSample r smax) := cumulLen_mono r (by omega)
      omega

theorem crop_nTimes (r : Raw) (hwf : wf r) (smin smax : ℕ)
    (hle : smin ≤ smax) (hmax : smax < nTimes r) :
    nTimes (crop r smin smax) = smax + 1 - smin := by
  have hlohi : fileOfSample r smin ≤ fileOfSample r smax := fileOfSample_mono r hle
  have hsmax := fileOfSample_spec r smax hmax
  have hwfc := crop_wf r hwf smin smax hle hmax
  have hnf := crop_numFiles r hwf smin smax hle hmax
  rw [← cumulLen_top (crop r smin smax) hwfc (le_of_eq hnf),
    crop_cumulLen r hwf smin smax hle hmax _ (le_refl _)]
  have : fileOfSample r smin + (fileOfSample r smax + 1 - fileOfSample r smin) =
      fileOfSample r smax + 1 := by omega
  rw [this]
  omega

theorem crop_fileOfSample (r : Raw) (hwf : wf r) (smin smax : ℕ)
    (hle : smin ≤ smax) (hmax : smax < nTimes r) (t : ℕ)
    (ht : t < smax + 1 - smin) :
    fileOfSample (crop r smin smax) t =
      fileOfSample r (smin + t) - fileOfSample r smin := by
  have hf := fileOfSample_spec r (smin + t) (by omega)
  have hf_lo : fileOfSample r smin ≤ fileOfSample r (smin + t) :=
    fileOfSample_mono r (by omega)
  have hf_hi : fileOfSample r (smin + t) ≤ fileOfSample r smax :=
    fileOfSample_mono r (by omega)
  apply fileOfSample_eq
  · rw [crop_cumulLen r hwf smin smax hle hmax _ (by omega)]
    have : fileOfSample r smin + (fileOfSample r (smin + t) - fileOfSample r smin) =
        fileOfSample r (smin + t) := by omega
    rw [this]
    omega
  · rw [crop_cumulLen r hwf smin smax hle hmax _ (by omega)]
    have : fileOfSample r smin +
        (fileOfSample r (smin + t) - fileOfSample r smin + 1) =
        fileOfSample r (smin + t) + 1 := by omega
    rw [this]
    omega

theorem selIdx_crop (r : Raw) (smin smax : ℕ) (sel : Option (List ℕ)) :
    selIdx (crop r smin smax) sel = selIdx r sel := by
  cases sel <;> rfl

theorem crop_segValueAt (r : Raw) (hwf : wf r) (smin smax : ℕ)
    (hle : smin ≤ smax) (hmax : smax < nTimes r) (cm : CalsMult) (i t : ℕ)
    (ht : t < smax + 1 - smin) :
    segValueAt (crop r smin smax) cm i t = segValueAt r cm i (smin + t) := by
  have hf := fileOfSample_spec r (smin + t) (by omega)
  have hf_lo : fileOfSample r smin ≤ fileOfSample r (smin + t) :=
    fileOfSample_mono r (by omega)
  have hf_hi : fileOfSample r (smin + t) ≤ fileOfSample r smax :=
    fileOfSample_mono r (by omega)
  have hsmin := fileOfSample_spec r smin (by omega)
  have hsmax := fileOfSample_spec r smax hmax
  have hfos := crop_fileOfSample r hwf smin smax hle hmax t ht
  have hjlt : fileOfSample r (smin + t) - fileOfSample r smin <
      fileOfSample r smax + 1 - fileOfSample r smin := by omega
  have hback : fileOfSample r smin +
      (fileOfSample r (smin + t) - fileOfSample r smin) =
      fileOfSample r (smin + t) := by omega
  have hfd := crop_fileData_getD r hwf smin smax hle hmax _ hjlt
  have hrp := crop_readPicks_getD r hwf smin smax hle hmax _ hjlt
  have hcl := crop_cumulLen r hwf smin smax hle hmax _ (le_of_lt hjlt)
  have hfs := crop_firstSamps_getD r hwf smin smax hle hmax _ hjlt
  rw [hback] at hfd hrp hcl
  have hmhi : cumulLen r (fileOfSample r (smin + t)) ≤
      cumulLen r (fileOfSample r smax) := cumulLen_mono r hf_hi
  have hloc : (crop r smin smax).firstSamps.getD
        (fileOfSample r (smin + t) - fileOfSample r smin) 0 +
      (t - cumulLen (crop r smin smax)
        (fileOfSample r (smin + t) - fileOfSample r smin)) =
      r.firstSamps.getD (fileOfSample r (smin + t)) 0 +
      (smin + t - cumulLen r (fileOfSample r (smin + t))) := by
    rw [hfs, hcl]
    by_cases h0 : fileOfSample r (smin + t) - fileOfSample r smin = 0
    · rw [if_pos h0]
      have heq : fileOfSample r (smin + t) = fileOfSample r smin := by omega
      rw [heq]
      omega
    · rw [if_neg h0]
      have hm2 : cumulLen r (fileOfSample r smin + 1) ≤
          cumulLen r (fileOfSample r (smin + t)) := cumulLen_mono r (by omega)
      rw [hback]
      omega
  unfold segValueAt
  rw [hfos]
  rcases cm with ⟨cals?, mult?, needIdx, nOut⟩
  cases cals? with
  | some c =>
    simp only [hfd, hrp, hloc]
  | none =>
    cases mult? with
    | some mm =>
      simp only [hfd, hrp, hloc]
    | none => rfl

/-- C5: cropping to a valid sample window and then querying the
cropped container over its full range returns exactly the same data as
directly indexing the original, uncropped container over the
corresponding sample sub-range, whether the container is preloaded or
reads on demand. -/
theorem c5_crop_then_read (r : Raw) (hwf : wf r) (smin smax : ℕ)
    (sel : Option (List ℕ)) (hle : smin ≤ smax) (hmax : smax < nTimes r) :
    ∃ dc d0,
      getitemData (crop r smin smax) sel 0 (nTimes (crop r smin smax)) = .ok dc ∧
      getitemData r sel smin (smax + 1) = .ok d0 ∧
      ∀ i, i < (selIdx r sel).length → ∀ t, t ≤ smax - smin → dc i t = d0 i t := by
  have hnt := crop_nTimes r hwf smin smax hle hmax
  cases hpre : r.preload with
  | some d =>
    have hpre2 : (crop r smin smax).preload = some (fun ch u => d ch (smin + u)) := by
      show r.preload.map _ = _
      rw [hpre]
      rfl
    have e1 : getitemData (crop r smin smax) sel 0 (nTimes (crop r smin smax)) =
        .ok (fun i t => d ((selIdx r sel).getD i 0) (smin + (0 + t))) := by
      unfold getitemData
      rw [hpre2, selIdx_crop]
    have e0 : getitemData r sel smin (smax + 1) =
        .ok (fun i t => d ((selIdx r sel).getD i 0) (smin + t)) := by
      unfold getitemData
      rw [hpre]
    refine ⟨_, _, e1, e0, ?_⟩
    intro i hi2 t ht
    simp
  | none =>
    have hpre2 : (crop r smin smax).preload = none := by
      show r.preload.map _ = _
      rw [hpre]
      rfl
    have hwfc := crop_wf r hwf smin smax hle hmax
    have e1 : getitemData (crop r smin smax) sel 0 (nTimes (crop r smin smax)) =
        readSegment (crop r smin smax) 0 (some (nTimes (crop r smin smax))) sel := by
      unfold getitemData
      rw [hpre2]
    have e0 : getitemData r sel smin (smax + 1) =
        readSegment r smin (some (smax + 1)) sel := by
      unfold getitemData
      rw [hpre]
    have hclC : clampStop (crop r smin smax) (some (nTimes (crop r smin smax))) =
        nTimes (crop r smin smax) := by
      simp [clampStop]
    have hcl0 : clampStop r (some (smax + 1)) = smax + 1 := by
      simp [clampStop]
      omega
    obtain ⟨outC, hrunC, hvalC⟩ := readSegment_spec (crop r smin smax) hwfc 0
      (some (nTimes (crop r smin smax))) sel (by rw [hclC, hnt]; omega)
    obtain ⟨out0, hrun0, hval0⟩ := readSegment_spec r hwf smin (some (smax + 1)) sel
      (by rw [hcl0]; omega)
    refine ⟨outC, out0, by rw [e1]; exact hrunC, by rw [e0]; exact hrun0, ?_⟩
    intro i hi2 t ht
    have h1 := hvalC i (by rw [selIdx_crop]; exact hi2) t (by rw [hclC, hnt]; omega)
    have h2 := hval0 i hi2 t (by rw [hcl0]; omega)
    rw [h1, h2]
    rw [selIdx_crop]
    have hcm : calcCalsMult (crop r smin smax) (selIdx r sel) =
        calcCalsMult r (selIdx r sel) := rfl
    rw [hcm, Nat.zero_add]
    exact crop_segValueAt r hwf smin smax hle hmax _ i t (by omega)

theorem c5_witness :
    ∃ dc d0,
      getitemData (crop rawW2 2 6) (some [0, 1]) 0 (nTimes (crop rawW2 2 6)) = .ok dc ∧
      getitemData rawW2 (some [0, 1]) 2 7 = .ok d0 ∧
      ∀ i, i < (selIdx rawW2 (some [0, 1])).length → ∀ t, t ≤ 4 → dc i t = d0 i t :=
  c5_crop_then_read rawW2 (by decide) 2 6 (some [0, 1]) (by decide) (by decide)

/-! ## C10: compensation grade change. -/

/-- C10: requesting the compensation grade already in effect is a
complete no-op — it never raises, even when projectors have been
applied, and the container (data, info, pending-operator state) is
returned unchanged; the projector-conflict error occurs only when the
requested grade differs from the current grade (and projectors have
been applied). -/
theorem c10_comp_grade_noop (r : Raw) (grade : ℤ)
    (mkComp : ℤ → ℤ → (ℕ → ℕ → ℚ)) :
    (grade = r.compGrade →
      applyGradientCompensation r grade mkComp = .ok r) ∧
    (∀ e, applyGradientCompensation r grade mkComp = .error e →
      grade ≠ r.compGrade ∧ r.projApplied = true) := by
  constructor
  · intro h
    unfold applyGradientCompensation
    rw [if_neg (by omega)]
  · intro e he
    unfold applyGradientCompensation at he
    by_cases h1 : r.compGrade ≠ grade
    · rw [if_pos h1] at he
      by_cases h2 : r.projApplied = true
      · exact ⟨by omega, h2⟩
      · rw [if_neg h2] at he
        split at he <;> simp_all
    · rw [if_neg h1] at he
      simp at he

theorem c10_witness :
    applyGradientCompensation rawW 0 (fun _ _ => fun _ _ => 0) = .ok rawW :=
  (c10_comp_grade_noop rawW 0 (fun _ _ => fun _ _ => 0)).1 rfl

/-! ## C3: concatenation sample count and boundary annotations. -/

/-- C3: appending a compatible container B (n2 samples) to A (n1
samples) yields a container with exactly n1 + n2 samples whose
annotations are the merged annotation sets followed by exactly two
added zero-duration boundary annotations, "BAD boundary" and
"EDGE boundary", anchored at the splice sample n1. -/
theorem c3_append_boundaries (a b c : Raw) (hwfa : wf a) (hwfb : wf b)
    (h : appendRaw a b = .ok c) :
    nTimes c = nTimes a + nTimes b ∧
    c.annotations = combineAnnotations a.annotations b.annotations (nTimes a) ++
      [⟨nTimes a, 0, "BAD boundary"⟩, ⟨nTimes a, 0, "EDGE boundary"⟩] := by
  unfold appendRaw at h
  by_cases hc : checkRawCompatibility a b = true
  · rw [if_pos hc] at h
    simp only [Except.ok.injEq] at h
    subst h
    constructor
    · show (rawLengths _).sum = _
      unfold rawLengths
      show (List.zipWith _ (a.firstSamps ++ b.firstSamps)
        (a.lastSamps ++ b.lastSamps)).sum = _
      rw [List.zipWith_append _ _ _ _ _ (by have := hwfa.1; unfold numFiles at this; omega),
        List.sum_append]
      rfl
    · rfl
  · rw [if_neg hc] at h
    simp at h

theorem c3_witness :
    ∃ c, appendRaw rawW rawW = .ok c ∧
      nTimes c = nTimes rawW + nTimes rawW ∧
      c.annotations = combineAnnotations rawW.annotations rawW.annotations (nTimes rawW) ++
        [⟨nTimes rawW, 0, "BAD boundary"⟩, ⟨nTimes rawW, 0, "EDGE boundary"⟩] := by
  have happ : ∃ c, appendRaw rawW rawW = .ok c := by
    unfold appendRaw
    rw [if_pos (by decide)]
    exact ⟨_, rfl⟩
  obtain ⟨c, hcq⟩ := happ
  exact ⟨c, hcq, c3_append_boundaries rawW rawW c (by decide) (by decide) hcq⟩

/-! ## C4: NaN-filling rejection by annotation. -/

theorem setRangeFalse_replicate_getD (n a b t : ℕ) (d0 : Bool) (ht : t < n) :
    (setRangeFalse (List.replicate n true) a b).getD t d0 =
      if a ≤ t ∧ t < b then false else true := by
  have hlen : t < (setRangeFalse (List.replicate n true) a b).length := by
    unfold setRangeFalse
    rw [List.length_mapIdx, List.length_replicate]
    exact ht
  rw [List.getD_eq_getElem _ _ hlen]
  unfold setRangeFalse
  simp [List.getElem_mapIdx]

set_option maxRecDepth 100000 in
/-- C4: for a container with one bad annotation covering samples
[100, 200), `get_data` with NaN rejection over the window [0, 300)
returns an array with the original sample count (300 per channel) in
which exactly the 100 entries per channel at indices [100, 200) are
NaN and all other entries equal the unrejected data. -/
theorem c4_nan_rejection (r : Raw) (d : ℕ → ℕ → ℚ) (picks : List ℕ)
    (hann : r.annotations = [⟨100, 100, "BAD_test"⟩])
    (hpre : r.preload = some d) (hn : 300 ≤ nTimes r) :
    ∃ res, getData r picks 0 (some 300) (some "nan") = .ok res ∧
      ∀ i, i < picks.length → ∀ t, t < 300 →
        res i t = if 100 ≤ t ∧ t < 200 then none
                  else some (d (picks.getD i 0) t) := by
  have hgi : getitemData r (some picks) 0 300 =
      .ok (fun i t => d (picks.getD i 0) (0 + t)) := by
    unfold getitemData
    rw [hpre]
    rfl
  have hstop : min 300 (nTimes r) = 300 := Nat.min_eq_left hn
  have hstart : min 0 (nTimes r) = 0 := Nat.zero_min _
  have hpairs : annotationsStartsStops r = [(100, 200)] := by
    unfold annotationsStartsStops
    rw [hann]
    decide
  refine ⟨fun i t =>
      if (usedMask 300 [(100, 200)] 0).getD t true
      then some (d (picks.getD i 0) (0 + t)) else none, ?_, ?_⟩
  · simp only [getData, hstart, hstop, hpairs]
    rw [if_neg (by rw [hann]; simp)]
    rw [if_neg (by decide)]
    rw [if_neg (by decide)]
    rw [if_pos (by decide)]
    rw [if_neg (by decide)]
    rw [hgi]
    rfl
  · intro i hi2 t ht
    have hused : (usedMask 300 [(100, 200)] 0).getD t true =
        if 100 ≤ t ∧ t < 200 then false else true := by
      unfold usedMask
      simp only [List.foldl]
      rw [if_neg (by decide)]
      exact setRangeFalse_replicate_getD 300 (100 - 0) (200 - 0) t true ht
    by_cases hc : 100 ≤ t ∧ t < 200
    · have h2 : (usedMask 300 [(100, 200)] 0).getD t true = false := by
        rw [hused, if_pos hc]
      simp only [List.getD_eq_getElem?_getD] at h2
      simp [h2, hc]
    · have h2 : (usedMask 300 [(100, 200)] 0).getD t true = true := by
        rw [hused, if_neg hc]
      simp only [List.getD_eq_getElem?_getD] at h2
      simp [h2, hc]

/-! ## C2: the split decision of the segmented writer. -/

theorem c4_witness :
    ∃ res, getData rawC4 [0, 1] 0 (some 300) (some "nan") = .ok res ∧
      ∀ i, i < ([0, 1] : List ℕ).length → ∀ t, t < 300 →
        res i t = if 100 ≤ t ∧ t < 200 then none
                  else some (dataW ([0, 1].getD i 0) t) :=
  c4_nan_rejection rawC4 dataW [0, 1] rfl rfl (by decide)

/-- C2 counterexample: on this configuration the writer emits the
forward-reference block and signals a further split after the first
buffer although only 5 samples — fewer than one full buffer of 10 —
remain to be written, refuting the "at least one more full buffer"
condition of the claim. -/
theorem c2_counterexample :
    writeRawData cfgC2 =
      .ok (10, [WEvent.buffer 0 10, WEvent.nextFileRef "next" 1]) ∧
    rawFidWriterWrite cfgC2 15 =
      .ok (10, [WEvent.buffer 0 10, WEvent.nextFileRef "next" 1], true) ∧
    cfgC2.stopS - 10 < cfgC2.bufferSize :=
  ⟨rfl, rfl, by decide⟩

/-- C2 (amended): after writing a buffer (with no pending or new
acquisition skip, no drop-small-buffer break and no size overflow), the
writer terminates the current file with a forward-reference block
naming the next file and its sequence index exactly when the byte
position has reached `split_size` minus the just-written buffer byte
length minus the fixed reserved trailer size AND at least one more
buffer — possibly a short final one, i.e. at least one more sample —
remains to be written; otherwise writing continues in the same file. -/
theorem c2_split_decision (cfg : WCfg) (doSkips : Bool) (first last : ℕ)
    (st : WState)
    (hskip : (doSkips && (cfg.skOnsets.zip cfg.skEnds).any
      (fun p => decide (p.1 ≤ first) && decide (last ≤ p.2))) = false)
    (hnsk : st.nCurrentSkip = 0)
    (hdrop : (cfg.dropSmallBuffer && decide (cfg.startS < first) &&
      decide (last - first < cfg.bufferSize)) = false)
    (hfit : ((st.pos + cfg.bufBytes (last - first) : ℤ) - cfg.splitSize +
      cfg.nextFileBufferBytes ≤ 0)) :
    ((cfg.splitSize : ℤ) - (st.pos + cfg.bufBytes (last - first) - st.posPrev : ℕ) -
        cfg.nextFileBufferBytes ≤ (st.pos + cfg.bufBytes (last - first) : ℕ) ∧
      first + cfg.bufferSize < cfg.stopS →
      writeBufferStep cfg doSkips first last st =
        .halt ⟨st.pos + cfg.bufBytes (last - first), st.posPrev, st.nCurrentSkip, last,
          (st.events ++ [WEvent.buffer first last]) ++
            [WEvent.nextFileRef cfg.nextFname (cfg.partIdx + 1)]⟩) ∧
    (¬((cfg.splitSize : ℤ) - (st.pos + cfg.bufBytes (last - first) - st.posPrev : ℕ) -
        cfg.nextFileBufferBytes ≤ (st.pos + cfg.bufBytes (last - first) : ℕ) ∧
      first + cfg.bufferSize < cfg.stopS) →
      writeBufferStep cfg doSkips first last st =
        .cont ⟨st.pos + cfg.bufBytes (last - first), st.pos + cfg.bufBytes (last - first),
          st.nCurrentSkip, last, st.events ++ [WEvent.buffer first last]⟩) := by
  obtain ⟨pos0, posPrev0, nsk0, newStart0, events0⟩ := st
  dsimp only at hnsk hfit ⊢
  subst hnsk
  unfold writeBufferStep
  rw [if_neg (by rw [hskip]; simp)]
  dsimp only
  have hco : (doSkips && decide (0 < 0)) = false := by simp
  rw [hco]
  simp only [Bool.false_eq_true, if_false]
  rw [if_neg (by simp [hdrop])]
  rw [if_neg (by omega)]
  constructor
  · intro hcond
    rw [if_pos hcond]
  · intro hcond
    rw [if_neg hcond]

theorem c2_witness :
    writeBufferStep cfgC2 false 0 10 ⟨3, 3, 0, 0, []⟩ =
      .halt ⟨3 + cfgC2.bufBytes (10 - 0), 3, 0, 10,
        (([] : List WEvent) ++ [WEvent.buffer 0 10]) ++
          [WEvent.nextFileRef "next" 1]⟩ :=
  (c2_split_decision cfgC2 false 0 10 ⟨3, 3, 0, 0, []⟩ (by decide) rfl (by decide)
    (by decide)).1 (by decide)

/-! ## C8: impossible split-size geometry. -/

theorem modifyLast_singleton (f : ℕ → ℕ) (x : ℕ) :
    modifyLast f [x] = [f x] := rfl

theorem modifyLast_cons_cons (f : ℕ → ℕ) (x y : ℕ) (rest : List ℕ) :
    modifyLast f (x :: y :: rest) = x :: modifyLast f (y :: rest) := rfl

theorem bufferPairs_head (cfg : WCfg) (hbs : 0 < cfg.bufferSize)
    (hlt : cfg.startS < cfg.stopS) :
    ∃ rest, (bufferFirsts cfg).zip (bufferLasts cfg) =
      (cfg.startS, min (cfg.startS + cfg.bufferSize) cfg.stopS) :: rest := by
  unfold bufferLasts
  unfold bufferFirsts
  set n := (cfg.stopS - cfg.startS + cfg.bufferSize - 1) / cfg.bufferSize with hn
  have hn1 : 1 ≤ n := by
    rw [hn, Nat.le_div_iff_mul_le hbs]
    omega
  obtain ⟨m, hm⟩ : ∃ m, n = m + 1 := ⟨n - 1, by omega⟩
  rw [hm]
  cases m with
  | zero =>
    refine ⟨[], ?_⟩
    have hmin : (if cfg.stopS < cfg.startS + cfg.bufferSize then cfg.stopS
        else cfg.startS + cfg.bufferSize) = min (cfg.startS + cfg.bufferSize) cfg.stopS := by
      by_cases h : cfg.stopS < cfg.startS + cfg.bufferSize
      · rw [if_pos h]
        omega
      · rw [if_neg h]
        omega
    rw [← hmin]
    rfl
  | succ m2 =>
    have hub : cfg.startS + cfg.bufferSize < cfg.stopS := by
      by_contra hcon
      push_neg at hcon
      have hlt2 : cfg.stopS - cfg.startS + cfg.bufferSize - 1 < 2 * cfg.bufferSize := by
        omega
      have hdiv := (Nat.div_lt_iff_lt_mul hbs).mpr hlt2
      rw [← hn] at hdiv
      omega
    refine ⟨(List.range' (cfg.startS + cfg.bufferSize) (m2 + 1) cfg.bufferSize).zip
      (modifyLast (fun x => if cfg.stopS < x then cfg.stopS else x)
        (List.map (fun f => f + cfg.bufferSize)
          (List.range' (cfg.startS + cfg.bufferSize) (m2 + 1) cfg.bufferSize))), ?_⟩
    have hmin : min (cfg.startS + cfg.bufferSize) cfg.stopS =
        cfg.startS + cfg.bufferSize := by omega
    rw [hmin]
    rfl

/-- C8: when the split geometry is impossible — the first serialized
buffer cannot fit within `split_size` after the metadata block while
leaving the reserved trailer space — the write raises the
configuration error on the first buffer of the file, before any split
decision is taken for that buffer (no forward reference and no further
buffer is ever written; the error return carries no events). -/
theorem c8_buffer_too_large (cfg : WCfg) (hsk : cfg.skOnsets = [])
    (hmeta : cfg.posMeta ≤ cfg.splitSize) (hbs : 0 < cfg.bufferSize)
    (hlt : cfg.startS < cfg.stopS)
    (hbig : (cfg.splitSize : ℤ) <
      (cfg.posMeta : ℤ) +
        cfg.bufBytes (min (cfg.startS + cfg.bufferSize) cfg.stopS - cfg.startS) +
        cfg.nextFileBufferBytes) :
    writeRawData cfg = .error "buffer size is too large for the given split size" := by
  obtain ⟨rest, hpairs⟩ := bufferPairs_head cfg hbs hlt
  have hds : doSkipsFlag cfg = false := by
    unfold doSkipsFlag
    rw [hsk]
    rfl
  have hstep : writeBufferStep cfg false cfg.startS
      (min (cfg.startS + cfg.bufferSize) cfg.stopS)
      ⟨cfg.posMeta, cfg.posMeta, 0, cfg.startS, []⟩ =
      .fail "buffer size is too large for the given split size" := by
    unfold writeBufferStep
    rw [if_neg (by simp)]
    dsimp only
    have hco : (false && decide (0 < 0)) = false := by simp
    rw [hco]
    simp only [Bool.false_eq_true, if_false]
    rw [if_neg (by simp)]
    rw [if_pos (by omega)]
  unfold writeRawData
  rw [if_neg (by omega)]
  rw [hds, hpairs]
  simp only [writeLoop]
  rw [hstep]

theorem c8_witness :
    writeRawData cfgC8 = .error "buffer size is too large for the given split size" :=
  c8_buffer_too_large cfgC8 rfl (by decide) (by decide) (by decide) (by decide)

end MNE
